import Mathlib

/-!
Verification of the studip-api concurrency core

Shallow embedding of `studip_api/downloader.py` (class `Download`) and
`studip_api/async_delay.py` (classes `DelayLatch` and `DeferredTask`),
with proofs of the specified properties.

Python byte ranges `range(start, stop)` are modelled as half-open
`ByteRange` records over `Nat`; timestamps from the event loop's clock are
modelled as `Int` (the code stores the sentinel `-1` and `time() - 1`,
which may go below zero); asynchronous outcomes are modelled as `Except`
values, and the scheduling behaviour of the event loop is modelled by
explicit settle times and event lists.
-/

namespace StudipApi

/-- Half-open byte interval `[start, stop)`, the model of a Python
`range(start, stop)` with unit step. -/
structure ByteRange where
  start : Nat
  stop : Nat
deriving Repr, DecidableEq

/-- Python `len(range(start, stop))`. -/
def ByteRange.size (r : ByteRange) : Nat := r.stop - r.start

/-! ## `Download.start`: partitioning into parts

`start()` computes `ranges = list(more_itertools.sliced(range(self.total_length),
self.chunk_size))`.  `more_itertools.sliced(seq, n)` yields the slices
`seq[0:n], seq[n:2*n], ...` while they are non-empty; for `seq = range(N)`
the slice `range(N)[k : k+n]` is `range(k, min(k+n, N))`.  `slicedGo` runs
this loop with fuel `N`, which suffices because each non-final iteration
consumes at least `C ≥ 1` elements. -/

/-- The slicing loop: emit `range(start, min(start+C, N))` while non-empty. -/
def slicedGo (N C : Nat) : Nat → Nat → List ByteRange
  | _, 0 => []
  | start, fuel + 1 =>
    if start < N then ⟨start, min (start + C) N⟩ :: slicedGo N C (start + C) fuel
    else []

/-- Model of `list(more_itertools.sliced(range(N), C))`.  For `C = 0` the first slice
`range(N)[0:0]` is already empty, so Python yields no slices at all. -/
def sliced (N C : Nat) : List ByteRange :=
  if C = 0 then [] else slicedGo N C 0 N

/-- Index characterization of the slicing loop: the `i`-th emitted range is
`range(start + i*C, min(start + (i+1)*C, N))`, provided the fuel covers the
remaining length. -/
theorem slicedGo_get? (N C : Nat) (hC : 0 < C) :
    ∀ fuel start i, N ≤ start + fuel →
      (slicedGo N C start fuel).get? i =
        if start + i * C < N then
          some ⟨start + i * C, min (start + (i + 1) * C) N⟩
        else none := by
  intro fuel
  induction fuel with
  | zero =>
    intro start i hfuel
    have : ¬ start + i * C < N := by omega
    simp [slicedGo, this]
  | succ fuel ih =>
    intro start i hfuel
    by_cases hs : start < N
    · cases i with
      | zero =>
        simp [slicedGo, hs]
      | succ i =>
        have h1 : N ≤ (start + C) + fuel := by omega
        have h2 : (start + C) + i * C = start + (i + 1) * C := by ring
        have h3 : (start + C) + (i + 1) * C = start + (i + 1 + 1) * C := by ring
        simp only [slicedGo, hs, if_pos, List.get?]
        rw [ih (start + C) i h1, h2, h3]
    · have : ∀ i, ¬ start + i * C < N := by intro j; omega
      simp [slicedGo, hs, this i]

/-- Length of the slicing loop's output: `ceil((N - start) / C)` written as
`(N - start + C - 1) / C`. -/
theorem slicedGo_length (N C : Nat) (hC : 0 < C) :
    ∀ fuel start, N ≤ start + fuel →
      (slicedGo N C start fuel).length = (N - start + C - 1) / C := by
  intro fuel
  induction fuel with
  | zero =>
    intro start hfuel
    have h0 : N - start = 0 := by omega
    have : C - 1 < C := by omega
    simp [slicedGo, h0, Nat.div_eq_of_lt this]
  | succ fuel ih =>
    intro start hfuel
    by_cases hs : start < N
    · have h1 : N ≤ (start + C) + fuel := by omega
      have hL : N - start + C - 1 = (N - start - 1) + C := by omega
      rw [slicedGo, if_pos hs]
      simp only [List.length_cons]
      rw [ih (start + C) h1, hL, Nat.add_div_right _ hC]
      by_cases h2 : N ≤ start + C
      · have e1 : N - (start + C) = 0 := by omega
        have e2 : N - start - 1 < C := by omega
        rw [e1, Nat.div_eq_of_lt (by omega : 0 + C - 1 < C),
            Nat.div_eq_of_lt e2]
      · have e1 : N - (start + C) + C - 1 = N - start - 1 := by omega
        rw [e1]
    · have h0 : N - start = 0 := by omega
      rw [slicedGo, if_neg hs]
      simp only [List.length_nil, h0, Nat.zero_add]
      exact (Nat.div_eq_of_lt (by omega)).symm

theorem sliced_get? (N C : Nat) (hC : 0 < C) (i : Nat) :
    (sliced N C).get? i =
      if i * C < N then some ⟨i * C, min ((i + 1) * C) N⟩ else none := by
  unfold sliced
  rw [if_neg (by omega : ¬ C = 0), slicedGo_get? N C hC N 0 i (by omega)]
  simp

theorem sliced_length (N C : Nat) (hC : 0 < C) :
    (sliced N C).length = (N + C - 1) / C := by
  unfold sliced
  rw [if_neg (by omega : ¬ C = 0), slicedGo_length N C hC N 0 (by omega)]
  simp

theorem sliced_get (N C : Nat) (hC : 0 < C) (i : Nat)
    (h : i < (sliced N C).length) :
    (sliced N C).get ⟨i, h⟩ = ⟨i * C, min ((i + 1) * C) N⟩ := by
  have h1 := sliced_get? N C hC i
  rw [List.get?_eq_get h] at h1
  by_cases h2 : i * C < N
  · rw [if_pos h2] at h1
    exact Option.some.inj h1
  · rw [if_neg h2] at h1
    exact absurd h1 (by simp)

/-- Every index of `sliced N C` satisfies `i * C < N`. -/
theorem sliced_index_lt (N C : Nat) (hC : 0 < C) (i : Nat)
    (h : i < (sliced N C).length) : i * C < N := by
  by_contra h2
  have h1 := sliced_get? N C hC i
  rw [List.get?_eq_get h, if_neg h2] at h1
  exact absurd h1 (by simp)

/-- C1: For every `totalLength = N ≥ 0` and `chunkSize = C > 0`, `start()`
creates exactly `ceil(N/C)` parts whose requested ranges partition `[0, N)`
with no gaps and no overlaps, in ascending contiguous order, each of length
at most `C`, and only the last possibly shorter than `C`: the `i`-th part is
`range(i*C, min((i+1)*C, N))`, consecutive parts touch, every part is
non-empty (hence ascending), the first starts at `0`, the last stops at `N`,
and every non-final part has length exactly `C`. -/
theorem claim_C1 (N C : Nat) (hC : 0 < C) :
    (sliced N C).length = (N + C - 1) / C ∧
    (∀ i, ∀ h : i < (sliced N C).length,
      (sliced N C).get ⟨i, h⟩ = ⟨i * C, min ((i + 1) * C) N⟩) ∧
    (∀ i, ∀ h : i + 1 < (sliced N C).length,
      ((sliced N C).get ⟨i, by omega⟩).stop = ((sliced N C).get ⟨i + 1, h⟩).start) ∧
    (∀ i, ∀ h : i < (sliced N C).length,
      ((sliced N C).get ⟨i, h⟩).start < ((sliced N C).get ⟨i, h⟩).stop) ∧
    (∀ i, ∀ h : i < (sliced N C).length, ((sliced N C).get ⟨i, h⟩).size ≤ C) ∧
    (∀ i, ∀ h : i + 1 < (sliced N C).length,
      ((sliced N C).get ⟨i, by omega⟩).size = C) ∧
    (0 < N → ∃ h0 : 0 < (sliced N C).length,
      ((sliced N C).get ⟨0, h0⟩).start = 0 ∧
      ((sliced N C).get ⟨(sliced N C).length - 1, by omega⟩).stop = N) := by
  refine ⟨sliced_length N C hC, sliced_get N C hC, ?_, ?_, ?_, ?_, ?_⟩
  · intro i h
    rw [sliced_get N C hC i (by omega), sliced_get N C hC (i + 1) h]
    have hi : (i + 1) * C < N := sliced_index_lt N C hC (i + 1) h
    simp only
    omega
  · intro i h
    rw [sliced_get N C hC i h]
    have hi : i * C < N := sliced_index_lt N C hC i h
    have : i * C < (i + 1) * C := by nlinarith
    simp only
    omega
  · intro i h
    rw [sliced_get N C hC i h]
    have : i * C + C = (i + 1) * C := by ring
    simp only [ByteRange.size]
    omega
  · intro i h
    rw [sliced_get N C hC i (by omega)]
    have hi : (i + 1) * C < N := sliced_index_lt N C hC (i + 1) h
    have : i * C + C = (i + 1) * C := by ring
    simp only [ByteRange.size]
    omega
  · intro hN
    have h0 : 0 < (sliced N C).length := by
      rw [sliced_length N C hC]
      exact (Nat.le_div_iff_mul_le hC).2 (by omega : 1 * C ≤ N + C - 1)
    refine ⟨h0, ?_, ?_⟩
    · rw [sliced_get N C hC 0 h0]
      simp
    · set L := (sliced N C).length with hL
      have hL1 : L - 1 + 1 = L := by omega
      have h1 : (L - 1) * C < N := sliced_index_lt N C hC (L - 1) (by omega)
      have h2 : ¬ (L * C < N) := by
        intro hcon
        have hnone := sliced_get? N C hC L
        rw [if_pos hcon, List.get?_eq_none.2 (by omega)] at hnone
        exact absurd hnone (by simp)
      rw [sliced_get N C hC (L - 1) (by omega), hL1]
      simp only
      omega

/-- Witness for C1 at `N = 7`, `C = 3`: the hypothesis `0 < 3` holds and the
partition has `ceil(7/3) = 3` parts. -/
theorem claim_C1_witness : (sliced 7 3).length = (7 + 3 - 1) / 3 :=
  (claim_C1 7 3 (by decide)).1

/-! ## `Download.await_readable`

The state visible to `await_readable` is `total_length`, the `parts` list of
`(range, future)` pairs and the `completed` future.  A settled future is an
`Except E` value (`E` abstracts the exception raised on failure); the
`completed` future is `none` while still pending. -/

/-- State of a `Download` as consulted by `await_readable`. -/
structure DownloadState (E : Type) where
  total_length : Nat
  parts : List (ByteRange × Except E ByteRange)
  completed : Option (Except E (List ByteRange))

/-- The loop's intersection test
`max(requested_range.start, r.start) < min(requested_range.stop, r.stop)`. -/
def intersects (a r : ByteRange) : Bool :=
  max a.start r.start < min a.stop r.stop

/-- The clamped window `requested_range = range(offset, min(offset + length, self.total_length))`. -/
def requestedRange {E : Type} (d : DownloadState E) (offset length : Nat) :
    ByteRange :=
  ⟨offset, min (offset + length) d.total_length⟩

/-- The part futures that `await_readable(offset, length)` awaits: none when
`completed` is already done (the early-return / re-raise path), otherwise
exactly the parts whose range intersects the clamped requested window, in
part order. -/
def awaitedParts {E : Type} (d : DownloadState E) (offset length : Nat) :
    List (ByteRange × Except E ByteRange) :=
  match d.completed with
  | some _ => []
  | none => d.parts.filter fun p => intersects (requestedRange d offset length) p.1

/-- Awaiting the selected futures in order and appending their results:
the first failed future re-raises its exception. -/
def collectResults {E : Type} :
    List (ByteRange × Except E ByteRange) → Except E (List ByteRange)
  | [] => .ok []
  | (_, f) :: rest =>
    match f with
    | .error e => .error e
    | .ok r =>
      match collectResults rest with
      | .error e => .error e
      | .ok rs => .ok (r :: rs)

/-- The assertion loop over `completed_ranges`: starting from `last = first`,
check `r.start <= last` for each range and advance `last` to `r.stop`;
`none` models a failed `assert`. -/
def connectedLast : Nat → List ByteRange → Option Nat
  | last, [] => some last
  | last, r :: rs => if r.start ≤ last then connectedLast r.stop rs else none

/-- How a call to `await_readable` can fail. -/
inductive AwaitReadableError (E : Type) where
  | raised (e : E)
  | indexError
  | assertionError
deriving Repr, DecidableEq

/-- Model of `Download.await_readable(offset, length)`: if `completed` is done, call
`completed.result()` (re-raising its failure) and return; otherwise await the
futures of all parts intersecting the clamped window, then run the
contiguity assertions (`completed_ranges[0]` raises on an empty list) and
the two coverage assertions against the clamped window. -/
def await_readable {E : Type} (d : DownloadState E) (offset length : Nat) :
    Except (AwaitReadableError E) Unit :=
  match d.completed with
  | some (.error e) => .error (.raised e)
  | some (.ok _) => .ok ()
  | none =>
    match collectResults (d.parts.filter fun p =>
        intersects (requestedRange d offset length) p.1) with
    | .error e => .error (.raised e)
    | .ok completed_ranges =>
      match completed_ranges with
      | [] => .error .indexError
      | r0 :: _ =>
        match connectedLast r0.start completed_ranges with
        | none => .error .assertionError
        | some last =>
          if r0.start ≤ (requestedRange d offset length).start ∧
              (requestedRange d offset length).stop ≤ last then .ok ()
          else .error .assertionError

theorem awaitedParts_none {E : Type} (d : DownloadState E) (offset length : Nat)
    (h : d.completed = none) :
    awaitedParts d offset length =
      d.parts.filter fun p => intersects (requestedRange d offset length) p.1 := by
  unfold awaitedParts
  rw [h]

/-- C2: `await_readable(offset, length)` awaits only the futures of parts
whose range intersects the window `[offset, offset+length)` — never a part
outside the window — and (when `completed` is still pending and each part
lies inside `[0, totalLength)`) awaits every part intersecting the window;
its outcome is determined by the requested window and the awaited parts
alone, so it returns once all of those parts are done; and when `completed`
has already failed, it re-raises that failure immediately and awaits no
individual part at all. -/
theorem claim_C2 {E : Type} (d : DownloadState E) (offset length : Nat)
    (hparts : ∀ p ∈ d.parts, p.1.stop ≤ d.total_length) :
    (∀ p ∈ awaitedParts d offset length,
      intersects ⟨offset, offset + length⟩ p.1 = true) ∧
    (d.completed = none → ∀ p ∈ d.parts,
      intersects ⟨offset, offset + length⟩ p.1 = true →
      p ∈ awaitedParts d offset length) ∧
    (∀ d' : DownloadState E, d.completed = none → d'.completed = none →
      requestedRange d offset length = requestedRange d' offset length →
      awaitedParts d offset length = awaitedParts d' offset length →
      await_readable d offset length = await_readable d' offset length) ∧
    (∀ e : E, d.completed = some (.error e) →
      await_readable d offset length = .error (.raised e) ∧
      awaitedParts d offset length = []) := by
  refine ⟨?_, ?_, ?_, ?_⟩
  · intro p hp
    unfold awaitedParts at hp
    cases hcompleted : d.completed with
    | some r => rw [hcompleted] at hp; simp at hp
    | none =>
      rw [hcompleted] at hp
      simp only [List.mem_filter] at hp
      have h2 := hp.2
      simp only [intersects, requestedRange, decide_eq_true_eq] at h2 ⊢
      omega
  · intro hcompleted p hp hint
    rw [awaitedParts_none d offset length hcompleted]
    simp only [List.mem_filter]
    refine ⟨hp, ?_⟩
    have hb := hparts p hp
    simp only [intersects, requestedRange, decide_eq_true_eq] at hint ⊢
    omega
  · intro d' h h' hreq hawaited
    rw [awaitedParts_none d offset length h,
        awaitedParts_none d' offset length h'] at hawaited
    unfold await_readable
    rw [h, h', ← hawaited, ← hreq]
  · intro e hcompleted
    constructor
    · unfold await_readable
      rw [hcompleted]
    · unfold awaitedParts
      rw [hcompleted]

/-- Witness for C2: on a state whose `completed` future already failed,
`await_readable` re-raises the failure (the part-bounds hypothesis holds
for the empty `parts` list). -/
theorem claim_C2_witness :
    await_readable (DownloadState.mk 10 [] (some (Except.error ())) ) 0 4 =
      Except.error (AwaitReadableError.raised ()) :=
  ((claim_C2 (DownloadState.mk 10 [] (some (Except.error ()))) 0 4
    (by intro p hp; simp at hp)).2.2.2 () rfl).1

/-- C10: `await_readable` clamps the requested window to the end of the
file: whenever `offset + length` reaches past `totalLength`, the requested
range becomes `[offset, totalLength)`, and the whole call (awaited parts
and coverage assertions alike) behaves exactly as for a request of length
`totalLength` from the same offset, whose window is clamped the same way —
coverage past `totalLength` is never required. -/
theorem claim_C10 {E : Type} (d : DownloadState E) (offset length : Nat)
    (h : d.total_length ≤ offset + length) :
    requestedRange d offset length = ⟨offset, d.total_length⟩ ∧
    awaitedParts d offset length = awaitedParts d offset d.total_length ∧
    await_readable d offset length = await_readable d offset d.total_length := by
  have hreq : requestedRange d offset length = ⟨offset, d.total_length⟩ := by
    unfold requestedRange
    congr 1
    omega
  have hreq2 : requestedRange d offset d.total_length = ⟨offset, d.total_length⟩ := by
    unfold requestedRange
    congr 1
    omega
  refine ⟨hreq, ?_, ?_⟩
  · unfold awaitedParts
    rw [hreq, hreq2]
  · unfold await_readable
    rw [hreq, hreq2]

/-- Witness for C10 at `totalLength = 10`, `offset = 5`, `length = 20`:
the hypothesis `10 ≤ 25` holds and the requested range is clamped to
`[5, 10)`. -/
theorem claim_C10_witness :
    requestedRange (DownloadState.mk 10 ([] : List (ByteRange × Except Unit ByteRange)) none) 5 20 =
      ⟨5, 10⟩ :=
  (claim_C10 (DownloadState.mk 10 ([] : List (ByteRange × Except Unit ByteRange)) none) 5 20
    (by decide)).1

/-! ## `Download.start`: the `await_completed` closure

`start()` sets `self.completed = asyncio.ensure_future(await_completed())`
where `await_completed` awaits `asyncio.gather(*(f for r, f in self.parts))`
and, in a `finally` block, awaits `self.aiofile.close()`.

`asyncio.gather` with the default `return_exceptions=False` propagates the
first raised exception as soon as it occurs (the remaining futures keep
running), and otherwise resolves with the list of results in argument order
once the last future settles.  Each part worker is modelled by its settled
outcome plus the event-loop time at which its future settles. -/

/-- A part worker's settled outcome and the time its future settles. -/
structure TimedOutcome (E : Type) where
  settleTime : Nat
  result : Except E ByteRange

/-- The failures among the part outcomes, as `(settleTime, exception)`
pairs in part order. -/
def partErrors {E : Type} (outs : List (TimedOutcome E)) : List (Nat × E) :=
  outs.filterMap fun o =>
    match o.result with
    | .error e => some (o.settleTime, e)
    | .ok _ => none

/-- The exception `asyncio.gather` propagates: the earliest-settling failure
(first in part order on a tie). -/
def firstError {E : Type} (outs : List (TimedOutcome E)) : Option (Nat × E) :=
  (partErrors outs).argmin Prod.fst

/-- The time by which every part future has settled. -/
def maxSettle {E : Type} (outs : List (TimedOutcome E)) : Nat :=
  (outs.map TimedOutcome.settleTime).foldr max 0

/-- Model of `asyncio.gather(*(f for r, f in self.parts))`: the pair of the gather
future's outcome and its settle time. -/
def gatherParts {E : Type} (outs : List (TimedOutcome E)) :
    Except E (List ByteRange) × Nat :=
  match firstError outs with
  | some (t, e) => (.error e, t)
  | none =>
    (.ok (outs.filterMap fun o =>
      match o.result with
      | .ok r => some r
      | .error _ => none), maxSettle outs)

/-- The `await_completed` closure: awaits the gather and, in a `finally`
block, closes the sink file on both the success and the failure path.
Returns `self.completed`'s outcome, its settle time, and the number of
times the sink was closed. -/
def await_completed {E : Type} (outs : List (TimedOutcome E)) :
    Except E (List ByteRange) × Nat × Nat :=
  match gatherParts outs with
  | (.error e, t) => (.error e, t, 1)
  | (.ok rs, t) => (.ok rs, t, 1)

theorem mem_partErrors {E : Type} (outs : List (TimedOutcome E)) (t : Nat) (e : E) :
    (t, e) ∈ partErrors outs ↔
      ∃ o ∈ outs, o.settleTime = t ∧ o.result = Except.error e := by
  unfold partErrors
  rw [List.mem_filterMap]
  constructor
  · rintro ⟨o, ho, hfo⟩
    refine ⟨o, ho, ?_⟩
    cases hr : o.result with
    | error e2 =>
      rw [hr] at hfo
      simp at hfo
      exact ⟨hfo.1, by rw [hfo.2]⟩
    | ok r => rw [hr] at hfo; simp at hfo
  · rintro ⟨o, ho, ht, hr⟩
    exact ⟨o, ho, by rw [hr, ← ht]⟩

theorem settle_le_maxSettle {E : Type} (outs : List (TimedOutcome E))
    (o : TimedOutcome E) (ho : o ∈ outs) : o.settleTime ≤ maxSettle outs := by
  unfold maxSettle
  induction outs with
  | nil => cases ho
  | cons hd tl ih =>
    rcases List.mem_cons.1 ho with h | h
    · subst h; simp only [List.map_cons, List.foldr_cons]; omega
    · have := ih h; simp only [List.map_cons, List.foldr_cons]; omega

/-- C3: whenever some part's worker fails, the aggregate `completed` future
fails, carrying the first such error — the exception of the earliest-settling
failed part — and it has already failed by the time all parts have settled
(its settle time is at most the last part's settle time); and on every
outcome, failure or success, the sink file is closed exactly once (by the
`finally` block of `await_completed`). -/
theorem claim_C3 {E : Type} (outs : List (TimedOutcome E))
    (o₀ : TimedOutcome E) (e₀ : E) (ho : o₀ ∈ outs)
    (he : o₀.result = Except.error e₀) :
    (∃ t e,
      (await_completed outs).1 = Except.error e ∧
      (await_completed outs).2.1 = t ∧
      (∃ o ∈ outs, o.settleTime = t ∧ o.result = Except.error e) ∧
      (∀ o ∈ outs, ∀ e2, o.result = Except.error e2 → t ≤ o.settleTime) ∧
      t ≤ maxSettle outs) ∧
    (∀ outs2 : List (TimedOutcome E), (await_completed outs2).2.2 = 1) := by
  constructor
  · have hmem : (o₀.settleTime, e₀) ∈ partErrors outs :=
      (mem_partErrors outs o₀.settleTime e₀).2 ⟨o₀, ho, rfl, he⟩
    have hne : partErrors outs ≠ [] := by
      intro hnil; rw [hnil] at hmem; cases hmem
    rcases hm : firstError outs with _ | ⟨t, e⟩
    · exact absurd (List.argmin_eq_none.1 hm) hne
    · have hmm : (t, e) ∈ (partErrors outs).argmin Prod.fst := by
        unfold firstError at hm
        exact Option.mem_def.2 hm
      refine ⟨t, e, ?_, ?_, ?_, ?_, ?_⟩
      · unfold await_completed gatherParts
        rw [hm]
      · unfold await_completed gatherParts
        rw [hm]
      · exact (mem_partErrors outs t e).1 (List.argmin_mem hmm)
      · intro o hoo e2 he2
        have : (o.settleTime, e2) ∈ partErrors outs :=
          (mem_partErrors outs o.settleTime e2).2 ⟨o, hoo, rfl, he2⟩
        exact List.le_of_mem_argmin this hmm
      · rcases (mem_partErrors outs t e).1 (List.argmin_mem hmm) with ⟨o, hoo, ht, _⟩
        rw [← ht]
        exact settle_le_maxSettle outs o hoo
  · intro outs2
    unfold await_completed
    rcases hg : gatherParts outs2 with ⟨r, tg⟩
    cases r <;> simp

/-- Witness for C3: with one part failing at time 5 and one succeeding at
time 10, the hypotheses hold and the sink is closed exactly once. -/
theorem claim_C3_witness :
    (await_completed ([] : List (TimedOutcome Unit))).2.2 = 1 :=
  (claim_C3 [TimedOutcome.mk 5 (Except.error ()), TimedOutcome.mk 10 (Except.ok ⟨0, 3⟩)]
    (TimedOutcome.mk 5 (Except.error ())) () (by simp) rfl).2 []

/-! ## `DelayLatch` (`async_delay.py`)

The latch's mutable state is `_run_at` (initially the sentinel `-1`),
`_cancelled`, and `_task`.  Clock values come from `time_fun` (the event
loop's clock); they are modelled as `Int` because the code stores `-1` and
`time() - 1`.  `_task` is abstracted to whether a wait task is alive
(`is_open()` is its negation). -/

/-- State of a `DelayLatch`. -/
structure DelayLatch where
  run_at : Int
  cancelled : Bool
  taskAlive : Bool
deriving Repr, DecidableEq

/-- A freshly constructed latch: `_run_at = -1`, `_cancelled = False`,
no `_task`. -/
def DelayLatch.init : DelayLatch := ⟨-1, false, false⟩

/-- Model of `__set_reopen_at(run_at)`: clear `_cancelled`, store the deadline, and
either start a new wait task (if the gate was open) or interrupt the
running one, which then re-checks the new deadline (if it was closed); in
both cases a live wait task now tracks the stored deadline. -/
def set_reopen_at (s : DelayLatch) (run_at : Int) : DelayLatch :=
  { run_at := run_at, cancelled := false, taskAlive := true }

/-- Model of `reopen_at(timestamp)`: `__set_reopen_at(max(self._run_at, timestamp))`. -/
def reopen_at (s : DelayLatch) (timestamp : Int) : DelayLatch :=
  set_reopen_at s (max s.run_at timestamp)

/-- Model of `reopen_in(delay)` called when the clock reads `now`:
`__set_reopen_at(max(self._run_at, self.time_fun() + delay))`. -/
def reopen_in (s : DelayLatch) (now delay : Int) : DelayLatch :=
  set_reopen_at s (max s.run_at (now + delay))

/-- Model of `reopen_now()` called when the clock reads `now`:
`__set_reopen_at(self.time_fun() - 1)` — no `max` with the old deadline. -/
def reopen_now (s : DelayLatch) (now : Int) : DelayLatch :=
  set_reopen_at s (now - 1)

/-- Model of `cancel_latch()`: set `_cancelled` and cancel a live wait task. -/
def cancel_latch (s : DelayLatch) : DelayLatch :=
  { s with cancelled := true }

/-- An interruption of the wait loop's sleep: either some reopen call pushed
the deadline (its state change runs before the sleep's `CancelledError`
lands) or `cancel_latch()` cancelled the task. -/
inductive LatchEvent where
  | reopenAt (timestamp : Int)
  | cancel
deriving Repr, DecidableEq

/-- The latch state change performed by the caller that interrupts the
sleep. -/
def applyEvent (s : DelayLatch) : LatchEvent → DelayLatch
  | .reopenAt t => reopen_at s t
  | .cancel => cancel_latch s

/-- How `__delayed_reopen_task` ends: the loop exits normally (the gate
reopens, having waited for the deadline that was finally in force) or the
`CancelledError` of a genuine cancellation propagates to the waiters. -/
inductive WaitOutcome where
  | reopened (finalDeadline : Int)
  | cancelledError
deriving Repr, DecidableEq

/-- The loop of `__delayed_reopen_task`, driven by the finite list of sleep
interruptions it experiences.  On each interruption the interrupting call's
state change has already happened; the `except asyncio.CancelledError`
handler re-raises iff `self._cancelled` is set, and otherwise loops,
re-checking the (possibly pushed) `_run_at`.  Once no interruption is left
the remaining sleep completes, `self.time_fun() < self._run_at` turns
false, and the loop exits normally at the deadline then in force. -/
def waitLoop (s : DelayLatch) : List LatchEvent → WaitOutcome
  | [] => .reopened s.run_at
  | ev :: evs =>
    let s2 := applyEvent s ev
    if s2.cancelled then .cancelledError else waitLoop s2 evs

/-- C6: `reopen_at(t)` always sets the deadline to `max(currentDeadline, t)`;
therefore `reopen_in(5)` followed, before the first delay has elapsed, by
`reopen_in(2)` leaves the gate closed (a wait task alive) with deadline
`now + 5` — five, not two, time units after the first call — while
`reopen_now()` sets the deadline to `now - 1`, strictly in the past, with no
`max` against a pending longer deadline, so the gate reopens immediately. -/
theorem claim_C6 :
    (∀ (s : DelayLatch) (t : Int), (reopen_at s t).run_at = max s.run_at t) ∧
    (∀ (s : DelayLatch) (now now2 : Int),
      s.run_at ≤ now → now ≤ now2 → now2 + 2 ≤ now + 5 →
      (reopen_in (reopen_in s now 5) now2 2).run_at = now + 5 ∧
      (reopen_in (reopen_in s now 5) now2 2).taskAlive = true) ∧
    (∀ (s : DelayLatch) (now : Int),
      (reopen_now s now).run_at = now - 1 ∧ (reopen_now s now).run_at < now) := by
  refine ⟨fun s t => rfl, ?_, ?_⟩
  · intro s now now2 h1 h2 h3
    constructor
    · simp only [reopen_in, set_reopen_at]
      omega
    · rfl
  · intro s now
    exact ⟨rfl, by simp only [reopen_now, set_reopen_at]; omega⟩

/-- Witness for C6 on a fresh latch: `reopen_in(5)` at time 0 then
`reopen_in(2)` at time 2 leaves the deadline at 5. -/
theorem claim_C6_witness :
    (reopen_in (reopen_in DelayLatch.init 0 5) 2 2).run_at = 0 + 5 ∧
    (reopen_in (reopen_in DelayLatch.init 0 5) 2 2).taskAlive = true :=
  claim_C6.2.1 DelayLatch.init 0 2 (by decide) (by decide) (by decide)

/-- A wait loop interrupted only by deadline pushes never raises: it
reopens at the `max`-folded final deadline. -/
theorem waitLoop_pushes (s : DelayLatch) (ts : List Int) (h : s.cancelled = false) :
    waitLoop s (ts.map LatchEvent.reopenAt) =
      .reopened (ts.foldl (fun d t => max d t) s.run_at) := by
  induction ts generalizing s with
  | nil => rfl
  | cons t rest ih =>
    simp only [List.map_cons, List.foldl_cons, waitLoop, applyEvent, reopen_at,
      set_reopen_at]
    exact ih ⟨max s.run_at t, false, true⟩ rfl

/-- C7: if the wait loop's sleeps are interrupted only by deadline pushes
(`reopen_at` / `reopen_in` run `__set_reopen_at`, which clears `_cancelled`
before cancelling the sleep), the loop never raises: it keeps re-checking
and finally reopens at the accumulated (`max`-folded) deadline.  If instead
an interruption comes from `cancel_latch()` (which sets `_cancelled`), the
handler re-raises the `CancelledError`, propagating the cancellation to the
waiters instead of completing normally. -/
theorem claim_C7 :
    (∀ (s : DelayLatch) (ts : List Int), s.cancelled = false →
      waitLoop s (ts.map LatchEvent.reopenAt) =
        .reopened (ts.foldl (fun d t => max d t) s.run_at)) ∧
    (∀ (s : DelayLatch) (evs : List LatchEvent),
      waitLoop s (LatchEvent.cancel :: evs) = .cancelledError) := by
  constructor
  · exact waitLoop_pushes
  · intro s evs
    simp [waitLoop, applyEvent, cancel_latch]

/-- Witness for C7: two pushes on a fresh latch end with a normal reopen at
the later deadline. -/
theorem claim_C7_witness :
    waitLoop DelayLatch.init ([3, 7].map LatchEvent.reopenAt) =
      WaitOutcome.reopened ([3, 7].foldl (fun d t => max d t) DelayLatch.init.run_at) :=
  claim_C7.1 DelayLatch.init [3, 7] rfl

/-- C9: `__set_reopen_at` assigns `self._cancelled = False` before storing
the deadline, and all of `reopen_at`, `reopen_in` and `reopen_now` go
through it, so each leaves `cancelled = false`; consequently cancellation is
not sticky: a latch that was cancelled and later re-armed by any reopen
operation runs a wait loop that, absent further cancellation, reopens
normally instead of propagating the earlier cancellation. -/
theorem claim_C9 :
    (∀ (s : DelayLatch) (t : Int), (reopen_at s t).cancelled = false) ∧
    (∀ (s : DelayLatch) (now delay : Int), (reopen_in s now delay).cancelled = false) ∧
    (∀ (s : DelayLatch) (now : Int), (reopen_now s now).cancelled = false) ∧
    (∀ (s : DelayLatch) (t : Int) (ts : List Int),
      ∃ d, waitLoop (reopen_at (cancel_latch s) t) (ts.map LatchEvent.reopenAt) =
        .reopened d) := by
  refine ⟨fun s t => rfl, fun s now delay => rfl, fun s now => rfl, ?_⟩
  intro s t ts
  exact ⟨_, waitLoop_pushes (reopen_at (cancel_latch s) t) ts rfl⟩

/-- Witness for C9: a cancelled fresh latch re-armed by `reopen_at 4` has
its `cancelled` flag cleared. -/
theorem claim_C9_witness :
    (reopen_at (cancel_latch DelayLatch.init) 4).cancelled = false :=
  claim_C9.1 (cancel_latch DelayLatch.init) 4

/-! ## `DeferredTask` (`async_delay.py`)

`defer()` distinguishes three states via `is_pending()` (`self._task`
exists and is not done) and `is_waiting()` (`not trigger_latch.is_open()`):

  * not pending: `trigger_latch.reopen_in(trigger_delay)` and start the
    chain `execute_sequentially(trigger_latch.wait_on_latch, run)`;
  * pending and waiting: only `trigger_latch.reopen_in(trigger_delay)`;
  * pending and running: re-arm the latch and start a chain that first
    awaits the prior task.

For the `defer()` claim the action is modelled as completing as soon as the
gate opens (the chain fires at its final deadline); the chains of the
running state are modelled separately for `finalize()` below.  The clock is
the event loop's time, passed explicitly to each call. -/

/-- The observable state of a `DeferredTask` driven by `defer()` calls:
the trigger latch's deadline, whether the current chain task is pending,
how many chain tasks were ever started, and the times at which the action
ran. -/
structure DeferredState where
  deadline : Int
  pending : Bool
  startedChains : Nat
  execTimes : List Int
deriving Repr, DecidableEq

/-- A fresh `DeferredTask`: latch at the sentinel deadline `-1`, no task. -/
def DeferredState.init : DeferredState := ⟨-1, false, 0, []⟩

/-- Model of `defer()` called when the clock reads `t`, with `trigger_delay = D`.
A chain whose gate deadline has already passed fired at that deadline (its
wait loop exited and the action ran), so it is done by now; then either the
fresh-chain branch or the push-the-deadline branch of `defer()` runs. -/
def deferStep (D : Int) (s : DeferredState) (t : Int) : DeferredState :=
  let s1 := if s.pending ∧ s.deadline ≤ t then
      { s with pending := false, execTimes := s.execTimes ++ [s.deadline] }
    else s
  if ¬ s1.pending then
    { deadline := max s1.deadline (t + D), pending := true,
      startedChains := s1.startedChains + 1, execTimes := s1.execTimes }
  else
    { s1 with deadline := max s1.deadline (t + D) }

/-- A whole `defer()` call sequence from a fresh task, after which the clock
runs on unboundedly: a chain still waiting at the end fires at its final
deadline. -/
def runDefers (D : Int) (ts : List Int) : DeferredState :=
  let s := ts.foldl (deferStep D) DeferredState.init
  if s.pending then
    { s with pending := false, execTimes := s.execTimes ++ [s.deadline] }
  else s

/-- Each listed time follows the previous one (calls are ordered) and
arrives strictly within `D` of it. -/
def withinDelay (D : Int) : Int → List Int → Prop
  | _, [] => True
  | prev, t :: ts => prev ≤ t ∧ t < prev + D ∧ withinDelay D t ts

/-- The last `defer()` time of the sequence. -/
def lastTime (t0 : Int) (ts : List Int) : Int := ts.foldl (fun _ t => t) t0

theorem runDefers_invariant (D : Int) :
    ∀ (ts : List Int) (prev : Int) (c : Nat), withinDelay D prev ts →
      ts.foldl (deferStep D) ⟨prev + D, true, c, []⟩ =
        ⟨lastTime prev ts + D, true, c, []⟩ := by
  intro ts
  induction ts with
  | nil => intro prev c _; rfl
  | cons t rest ih =>
    intro prev c hw
    rcases hw with ⟨h1, h2, h3⟩
    have hstep : deferStep D ⟨prev + D, true, c, []⟩ t = ⟨t + D, true, c, []⟩ := by
      have hnotdue : ¬(prev + D ≤ t) := by omega
      have hmax : max (prev + D) (t + D) = t + D := by omega
      simp [deferStep, hnotdue, hmax]
    rw [List.foldl_cons, hstep, ih t c h3]
    simp [lastTime]

/-- C4: starting from the idle state, a sequence of `defer()` calls each
arriving strictly within `triggerDelay` of the previous one starts exactly
one chain and executes the action exactly once, `triggerDelay` after the
last `defer()` of the sequence; every `defer()` but the first finds the
chain still waiting and only pushes the gate deadline out, never starting a
second chain.  (`0 ≤ t0` because the event loop's clock is non-negative.) -/
theorem claim_C4 (D t0 : Int) (ts : List Int) (hD : 0 < D) (ht0 : 0 ≤ t0)
    (hw : withinDelay D t0 ts) :
    runDefers D (t0 :: ts) =
      ⟨lastTime t0 ts + D, false, 1, [lastTime t0 ts + D]⟩ ∧
    (∀ (s : DeferredState) (t : Int), s.pending = true → t < s.deadline →
      deferStep D s t = { s with deadline := max s.deadline (t + D) }) := by
  constructor
  · unfold runDefers
    have hfirst : deferStep D DeferredState.init t0 = ⟨t0 + D, true, 1, []⟩ := by
      have hmax : max (-1 : Int) (t0 + D) = t0 + D := by omega
      simp [deferStep, DeferredState.init, hmax]
    rw [List.foldl_cons, hfirst, runDefers_invariant D ts t0 1 hw]
    simp
  · intro s t hp ht
    have h1 : ¬(s.deadline ≤ t) := by omega
    simp [deferStep, hp, h1]

/-- Witness for C4: three `defer()` calls at times 0, 3, 6 with
`triggerDelay = 10` yield one chain and one execution, at time 16. -/
theorem claim_C4_witness :
    runDefers 10 [0, 3, 6] =
      ⟨lastTime 0 [3, 6] + 10, false, 1, [lastTime 0 [3, 6] + 10]⟩ :=
  (claim_C4 10 0 [3, 6] (by decide) (by decide)
    (by refine ⟨by decide, by decide, by decide, by decide, trivial⟩)).1

/-! ## `DeferredTask.finalize`

`execute_sequentially(*coro_funcs)` awaits each coroutine in order inside a
single task; the first exception aborts the chain and becomes the chain
task's failure.  `_wait_for_task()` is `asyncio.wait([self._task])`, which
completes once the prior task is done but does not consume or re-raise its
exception.  `finalize()` builds/locates the final chain according to the
same three states and ends with `await self._task`, so its caller sees that
chain's outcome. -/

/-- One awaited element of a chain run by `execute_sequentially`. -/
inductive ChainStep (E : Type) where
  | waitForTask (outcome : Except E Unit)
  | awaitCoro (outcome : Except E Unit)

/-- The effect of awaiting one chain element: `asyncio.wait([task])`
completes normally whatever the task's outcome was; awaiting a coroutine
propagates its exception. -/
def stepOutcome {E : Type} : ChainStep E → Except E Unit
  | .waitForTask _ => .ok ()
  | .awaitCoro o => o

/-- Model of `execute_sequentially(*coro_funcs)`: awaits the steps in order, failing
with the first exception. -/
def execute_sequentially {E : Type} : List (ChainStep E) → Except E Unit
  | [] => .ok ()
  | st :: rest =>
    match stepOutcome st with
    | .error e => .error e
    | .ok _ => execute_sequentially rest

/-- The three states `finalize()` (and `defer()`) distinguishes. -/
inductive TaskPhase where
  | idle
  | waiting
  | running

/-- The chain that `finalize()` awaits at its end, per state: when idle,
`execute_sequentially(self.run)`; when waiting, the chain `defer()` already
queued — `execute_sequentially(trigger_latch.wait_on_latch, run)`, whose
latch wait finishes normally after `reopen_now()`; when running,
`execute_sequentially(self._wait_for_task, self.run)`.  `latchWait` is the
outcome of the queued chain's `wait_on_latch`, `prior` the superseded
task's outcome, `run` the final run of the action. -/
def finalizeChain {E : Type} (phase : TaskPhase)
    (latchWait prior run : Except E Unit) : List (ChainStep E) :=
  match phase with
  | .idle => [.awaitCoro run]
  | .waiting => [.awaitCoro latchWait, .awaitCoro run]
  | .running => [.waitForTask prior, .awaitCoro run]

/-- Model of `await self._task` at the end of `finalize()`: the caller observes the
final chain's outcome. -/
def finalize {E : Type} (phase : TaskPhase)
    (latchWait prior run : Except E Unit) : Except E Unit :=
  execute_sequentially (finalizeChain phase latchWait prior run)

/-- C5: `finalize()` awaits the resulting chain before returning, and in
every state its caller observes exactly the outcome of the final run of the
action — an error raised by that final run propagates — while the prior,
superseded chain's outcome (awaited through `asyncio.wait` in the running
state) is swallowed no matter whether it failed.  The hypothesis records
that after `reopen_now()` the queued chain's latch wait finishes without
raising. -/
theorem claim_C5 {E : Type} (latchWait prior run : Except E Unit)
    (hlw : latchWait = Except.ok ()) :
    finalize TaskPhase.idle latchWait prior run = run ∧
    finalize TaskPhase.waiting latchWait prior run = run ∧
    finalize TaskPhase.running latchWait prior run = run := by
  subst hlw
  refine ⟨?_, ?_, ?_⟩ <;>
    cases run <;>
      simp [finalize, finalizeChain, execute_sequentially, stepOutcome]

/-- Witness for C5: with the prior chain failed and the final run failing
too, `finalize()` surfaces the final run's error (the prior failure is
swallowed). -/
theorem claim_C5_witness :
    finalize TaskPhase.running (Except.ok ()) (Except.error 1) (Except.error (2 : Nat)) =
      Except.error 2 :=
  (claim_C5 (Except.ok ()) (Except.error 1) (Except.error 2) rfl).2.2

/-! ## `Download.fetch_total_length`

The probe issues a `HEAD` request and computes

    total_length = r.content_length or r.headers.get("Content-Length", None)
    if not total_length and "Content-Range" in r.headers:
        match = re.match("bytes ([0-9]*)-([0-9]*)/([0-9]*)", content_range)
        total_length = match.group(3)
    total_length = int(total_length)

The value flowing through `total_length` is dynamically typed (`None`, an
`int` from aiohttp's parsed attribute, or a header `str`), and Python's
`or` / `if not` use truthiness, so `0`, `""` and `None` all count as "no
usable length".  A failed regex match leaves `match = None` and
`match.group(3)` raises; `int(None)` and `int` on a junk string raise too.
All of these escape `fetch_total_length` as the condition the spec calls
`LengthUnknownError`.  Header values are modelled as `List Char`; `int` on
a string is modelled as an optional sign followed by decimal digits
(Python's tolerance for surrounding whitespace and underscore grouping is
not modelled — no claim depends on it). -/

/-- A dynamically-typed Python value flowing through `total_length`. -/
inductive PyVal where
  | vnone
  | vint (n : Int)
  | vstr (s : List Char)
deriving Repr, DecidableEq

/-- Python truthiness: `None`, `0` and `""` are falsy. -/
def truthy : PyVal → Bool
  | .vnone => false
  | .vint n => n != 0
  | .vstr s => !s.isEmpty

/-- Python's short-circuiting `a or b`: the first truthy operand, else `b`. -/
def pyOr (a b : PyVal) : PyVal := if truthy a then a else b

/-- The numeric value of a run of decimal digit characters. -/
def digitsVal (ds : List Char) : Nat :=
  ds.foldl (fun a c => 10 * a + (c.toNat - 48)) 0

/-- Model of `int(s)` on a string: optional sign, then at least one decimal digit;
anything else raises `ValueError` (`none`). -/
def pyIntOfChars (s : List Char) : Option Int :=
  match s with
  | '-' :: ds =>
    if ds ≠ [] ∧ ds.all (·.isDigit) then some (-(digitsVal ds : Int)) else none
  | '+' :: ds =>
    if ds ≠ [] ∧ ds.all (·.isDigit) then some ((digitsVal ds : Int)) else none
  | ds =>
    if ds ≠ [] ∧ ds.all (·.isDigit) then some ((digitsVal ds : Int)) else none

/-- Model of `int(total_length)` on the dynamic value: `int(None)` raises
`TypeError` (`none`), an `int` passes through, a string is parsed. -/
def pyInt : PyVal → Option Int
  | .vnone => none
  | .vint n => some n
  | .vstr s => pyIntOfChars s

/-- Demand the literal character `c` next, yielding the remainder. -/
def expectChar (c : Char) : List Char → Option (List Char)
  | x :: r => if x = c then some r else none
  | [] => none

/-- Model of `re.match("bytes ([0-9]*)-([0-9]*)/([0-9]*)", s)`, returning
`match.group(3)`; `none` when the pattern does not match a prefix of `s`.
Each greedy `[0-9]*` standing before a literal takes exactly the maximal
digit run (a shorter take would leave a digit where the non-digit literal
must match), so group 1 and 2 are the runs skipped by `dropWhile`; the
third group is maximal with nothing anchored after it. -/
def contentRangeGroup3 (s : List Char) : Option (List Char) :=
  if s.take 6 = ['b', 'y', 't', 'e', 's', ' '] then
    match expectChar '-' ((s.drop 6).dropWhile (·.isDigit)) with
    | some rest1 =>
      match expectChar '/' (rest1.dropWhile (·.isDigit)) with
      | some rest2 => some (rest2.takeWhile (·.isDigit))
      | none => none
    | none => none
  else none

/-- The probe response: aiohttp's parsed `content_length` attribute and the
raw headers (`get` returns the first matching key). -/
structure HeadResponse where
  content_length : Option Int
  headers : List (List Char × List Char)

/-- Model of `r.headers.get(k, None)`. -/
def headersGet (hs : List (List Char × List Char)) (k : List Char) :
    Option (List Char) :=
  (hs.find? fun p => p.1 == k).map (·.2)

/-- The condition the spec calls `LengthUnknownError`: the probe produced
no usable length and the conversion raised. -/
inductive LengthUnknownError where
  | lengthUnknown
deriving Repr, DecidableEq

def contentLengthKey : List Char := ['C','o','n','t','e','n','t','-','L','e','n','g','t','h']
def contentRangeKey : List Char := ['C','o','n','t','e','n','t','-','R','a','n','g','e']

/-- Model of `Download.fetch_total_length` on the probe response. -/
def fetch_total_length (r : HeadResponse) : Except LengthUnknownError Int :=
  let totalLength0 : PyVal :=
    pyOr (match r.content_length with | some n => .vint n | none => .vnone)
         (match headersGet r.headers contentLengthKey with
          | some s => .vstr s
          | none => .vnone)
  let afterRange : Except LengthUnknownError PyVal :=
    if truthy totalLength0 = false ∧ (headersGet r.headers contentRangeKey).isSome then
      match headersGet r.headers contentRangeKey with
      | some cr =>
        match contentRangeGroup3 cr with
        | some g3 => .ok (.vstr g3)
        | none => .error .lengthUnknown
      | none => .ok totalLength0
    else .ok totalLength0
  match afterRange with
  | .error e => .error e
  | .ok v =>
    match pyInt v with
    | some n => .ok n
    | none => .error .lengthUnknown

theorem dropWhile_digits_append (A : List Char) (c : Char) (r : List Char)
    (hA : ∀ x ∈ A, x.isDigit = true) (hc : c.isDigit = false) :
    (A ++ c :: r).dropWhile (·.isDigit) = c :: r := by
  induction A with
  | nil => simp [List.dropWhile_cons, hc]
  | cons a A ih =>
    have ha : a.isDigit = true := hA a (by simp)
    simp only [List.cons_append, List.dropWhile_cons, ha, if_pos]
    exact ih fun x hx => hA x (by simp [hx])

theorem takeWhile_digits (T : List Char) (hT : ∀ x ∈ T, x.isDigit = true) :
    T.takeWhile (·.isDigit) = T := by
  induction T with
  | nil => rfl
  | cons c T ih =>
    have hc : c.isDigit = true := hT c (by simp)
    simp only [List.takeWhile_cons, hc, if_pos]
    rw [ih fun x hx => hT x (by simp [hx])]

theorem contentRangeGroup3_eq (A B T : List Char)
    (hA : ∀ x ∈ A, x.isDigit = true) (hB : ∀ x ∈ B, x.isDigit = true)
    (hT : ∀ x ∈ T, x.isDigit = true) :
    contentRangeGroup3 (['b', 'y', 't', 'e', 's', ' '] ++ (A ++ '-' :: (B ++ '/' :: T))) =
      some T := by
  unfold contentRangeGroup3
  rw [List.take_left' (by rfl), if_pos rfl, List.drop_left' (by rfl),
    dropWhile_digits_append A '-' (B ++ '/' :: T) hA (by decide)]
  simp [expectChar, dropWhile_digits_append B '/' T hB (by decide),
    takeWhile_digits T hT]

theorem pyIntOfChars_digits (T : List Char) (hT : ∀ x ∈ T, x.isDigit = true)
    (hne : T ≠ []) : pyIntOfChars T = some ((digitsVal T : Nat) : Int) := by
  rcases T with _ | ⟨c, ds⟩
  · exact absurd rfl hne
  · have hc : c.isDigit = true := hT c (by simp)
    have hcm : c ≠ '-' := by intro h; rw [h] at hc; exact absurd hc (by decide)
    have hcp : c ≠ '+' := by intro h; rw [h] at hc; exact absurd hc (by decide)
    have hall : (c :: ds).all (·.isDigit) = true := List.all_eq_true.2 hT
    unfold pyIntOfChars
    split
    · rename_i ds2 heq
      exact absurd (List.head_eq_of_cons_eq heq) hcm
    · rename_i ds2 heq
      exact absurd (List.head_eq_of_cons_eq heq) hcp
    · rw [if_pos ⟨by simp, hall⟩]

/-- C8: `fetch_total_length()` returns the total length from an explicit
length source when one is present — the parsed non-zero `content_length`
attribute, or else a non-empty all-digit `Content-Length` header — and
otherwise extracts `TOTAL` from a `Content-Range` header of the form
`bytes A-B/TOTAL`; it fails with the condition the spec calls
`LengthUnknownError` whenever neither source is present (no attribute, no
`Content-Length`, no `Content-Range`) or the `Content-Range` present is not
parseable (the regex does not match, or `TOTAL` is empty). -/
theorem claim_C8 (r : HeadResponse) :
    (∀ n : Int, r.content_length = some n → n ≠ 0 →
      fetch_total_length r = .ok n) ∧
    (∀ ds : List Char,
      (r.content_length = none ∨ r.content_length = some 0) →
      headersGet r.headers contentLengthKey = some ds →
      ds ≠ [] → (∀ c ∈ ds, c.isDigit = true) →
      fetch_total_length r = .ok ((digitsVal ds : Nat) : Int)) ∧
    (∀ A B T : List Char,
      (r.content_length = none ∨ r.content_length = some 0) →
      headersGet r.headers contentLengthKey = none →
      headersGet r.headers contentRangeKey =
        some (['b', 'y', 't', 'e', 's', ' '] ++ (A ++ '-' :: (B ++ '/' :: T))) →
      (∀ c ∈ A, c.isDigit = true) → (∀ c ∈ B, c.isDigit = true) →
      (∀ c ∈ T, c.isDigit = true) → T ≠ [] →
      fetch_total_length r = .ok ((digitsVal T : Nat) : Int)) ∧
    ((r.content_length = none ∨ r.content_length = some 0) →
      headersGet r.headers contentLengthKey = none →
      headersGet r.headers contentRangeKey = none →
      fetch_total_length r = .error .lengthUnknown) ∧
    (∀ cr : List Char,
      (r.content_length = none ∨ r.content_length = some 0) →
      headersGet r.headers contentLengthKey = none →
      headersGet r.headers contentRangeKey = some cr →
      (contentRangeGroup3 cr = none ∨ contentRangeGroup3 cr = some []) →
      fetch_total_length r = .error .lengthUnknown) := by
  refine ⟨?_, ?_, ?_, ?_, ?_⟩
  · intro n hcl hn
    unfold fetch_total_length
    rw [hcl]
    have ht : truthy (.vint n) = true := by simp [truthy, hn]
    simp [pyOr, ht, pyInt]
  · intro ds hcl hget hne hdig
    unfold fetch_total_length
    rcases hcl with h | h <;>
      rw [h, hget] <;>
        simp [pyOr, truthy, hne, pyInt, pyIntOfChars_digits ds hdig hne]
  · intro A B T hcl hcl2 hcr hA hB hT hne
    have hg : contentRangeGroup3
        ('b' :: 'y' :: 't' :: 'e' :: 's' :: ' ' :: (A ++ '-' :: (B ++ '/' :: T))) =
          some T :=
      contentRangeGroup3_eq A B T hA hB hT
    unfold fetch_total_length
    rcases hcl with h | h <;>
      rw [h, hcl2, hcr] <;>
        simp [pyOr, truthy, hg, pyInt, pyIntOfChars_digits T hT hne]
  · intro hcl hcl2 hcr
    unfold fetch_total_length
    rcases hcl with h | h <;>
      rw [h, hcl2, hcr] <;>
        simp [pyOr, truthy, pyInt]
  · intro cr hcl hcl2 hcr hbad
    unfold fetch_total_length
    rcases hcl with h | h <;>
      rw [h, hcl2, hcr] <;>
        rcases hbad with hb | hb <;>
          simp [pyOr, truthy, hb, pyInt, pyIntOfChars]

/-- Witness for C8: a response with no `content_length`, no
`Content-Length` header, and `Content-Range: bytes 0-99/1000` yields 1000
(the digits of `TOTAL`). -/
theorem claim_C8_witness :
    fetch_total_length
      (HeadResponse.mk none
        [(contentRangeKey,
          ['b', 'y', 't', 'e', 's', ' '] ++
            (['0'] ++ '-' :: (['9', '9'] ++ '/' :: ['1', '0', '0', '0'])))]) =
      .ok ((digitsVal ['1', '0', '0', '0'] : Nat) : Int) :=
  (claim_C8 _).2.2.1 ['0'] ['9', '9'] ['1', '0', '0', '0']
    (Or.inl rfl) (by decide) (by decide)
    (by decide) (by decide) (by decide) (by decide)

end StudipApi
